import Mathlib

/-!
# Verification of the checktick recovery core

Shallow embedding of the checktick recovery workflow: the Shamir secret
sharing used for the platform custodian component, the recovery-request
state machine with its hash-chained audit log, and the periodic
time-delay sweep command.

The repository snapshot ships the tests and the sweep command
(`surveys/management/commands/process_recovery_time_delays.py`) but not
`surveys/shamir.py`, `surveys/models.py` or the platform recovery command;
those components are modelled from the specification, as noted on each
definition.
-/

namespace CheckTick

section Shamir

variable {K : Type} [Field K] [DecidableEq K]

/-- Modelled from the spec: `surveys/shamir.py` is absent from the snapshot.
Horner evaluation of a polynomial given by its coefficient list, constant
term first.  The spec (§4.1) fixes per-byte polynomials over a finite
field; the development is parametric in the field `K`. -/
def gfPolyEval (cs : List K) (x : K) : K :=
  cs.foldr (fun c acc => c + x * acc) 0

/-- Modelled from the spec: one custodian share, carrying its evaluation
point (the share index mapped into the field, never `0`) and the per-byte
share values (spec §3, §4.1). -/
structure Share (K : Type) (L : ℕ) where
  x : K
  values : Fin L → K

/-- Modelled from the spec: Lagrange interpolation evaluated at `x = 0`,
written exactly as the classical per-byte reconstruction formula
`Σ_i y_i · Π_{j ≠ i} x_j / (x_j - x_i)` (spec §4.1). -/
def lagrangeAtZero {m : ℕ} (xs ys : Fin m → K) : K :=
  ∑ i, ys i * ∏ j ∈ Finset.univ.erase i, xs j / (xs j - xs i)

/-- Modelled from the spec: `split_secret` (imported by the tests from
`checktick_app.surveys.shamir`).  For each byte position `b` the sharing
polynomial has constant term `secret b` and randomly drawn tail
coefficients `tail b` (degree ≤ t-1); share `i` is the polynomial
evaluated at the point `pts i`.  Randomness is passed explicitly as the
`tail` argument; the evaluation points (share indices `1..n` as field
elements) are passed as `pts`. -/
def split_secret {L : ℕ} (secret : Fin L → K) (t n : ℕ)
    (tail : Fin L → Fin (t - 1) → K) (pts : Fin n → K) : Fin n → Share K L :=
  fun i => ⟨pts i, fun b => gfPolyEval (secret b :: List.ofFn (tail b)) (pts i)⟩

/-- Modelled from the spec: `reconstruct_secret` — per-byte Lagrange
interpolation at `x = 0` over the supplied shares (spec §4.1). -/
def reconstruct_secret {L m : ℕ} (shares : Fin m → Share K L) : Fin L → K :=
  fun b => lagrangeAtZero (fun i => (shares i).x) (fun i => (shares i).values b)

/-- The polynomial denoted by a coefficient list (constant term first);
used only in proofs, to relate `gfPolyEval` to Mathlib's polynomial
theory. -/
noncomputable def pOf : List K → Polynomial K
  | [] => 0
  | c :: cs => Polynomial.C c + Polynomial.X * pOf cs

/-- The field `GF(11)` used for concrete instantiations of the Shamir
theorems (any field with enough distinct nonzero points works). -/
instance : Fact (Nat.Prime 11) := ⟨by norm_num⟩

/-- Concrete 64-byte secret used to instantiate the Shamir theorems. -/
def sampleSecret : Fin 64 → ZMod 11 := fun _ => 3

/-- Concrete tail coefficients for a threshold-2 split. -/
def sampleTail : Fin 64 → Fin 1 → ZMod 11 := fun _ _ => 7

/-- Concrete distinct nonzero share points for a 3-share split. -/
def samplePts : Fin 3 → ZMod 11 := fun i => (i : ℕ) + 1

/-- Concrete distinct nonzero share points for a 2-share split. -/
def samplePts2 : Fin 2 → ZMod 11 := fun i => (i : ℕ) + 1

/-- Concrete 2-of-3 subset selection. -/
def sampleSel : Fin 2 → Fin 3 := fun i => ⟨i, by omega⟩

end Shamir

/-! ## Recovery request state machine and audit chain

`surveys/models.py` is absent from the snapshot; the `RecoveryRequest`
state machine, the audit chain and the platform recovery executor are
modelled from the spec (§3, §4.2, §4.3, §4.4).  Timestamps are modelled
as natural numbers measured in hours, so that
`time_delay_until = now + time_delay_hours` (spec §4.3). -/

/-- Modelled from the spec: the status enum of a `RecoveryRequest`
(spec §4.3). -/
inductive Status
  | PENDING_VERIFICATION
  | AWAITING_PRIMARY
  | AWAITING_SECONDARY
  | IN_TIME_DELAY
  | READY_FOR_EXECUTION
  | PENDING_PLATFORM_RECOVERY
  | COMPLETED
  | REJECTED
  | CANCELLED
  deriving DecidableEq

/-- Terminal states: `COMPLETED`, `REJECTED`, `CANCELLED` (spec §3). -/
def Status.isTerminal : Status → Bool
  | .COMPLETED => true
  | .REJECTED => true
  | .CANCELLED => true
  | _ => false

/-- Modelled from the spec: one hash-chained audit entry (spec §3).
`details` is the structured key-value payload. -/
structure RecoveryAuditEntry where
  event_type : String
  actor_type : String
  actor_id : ℕ
  actor_email : String
  severity : String
  details : List (String × String)
  timestamp : ℕ
  previous_hash : String
  entry_hash : String
  deriving DecidableEq

/-- Modelled from the spec: a recovery request together with its
insertion-ordered (equivalently timestamp-ordered) audit entries
(spec §3). -/
structure RecoveryRequest where
  id : ℕ
  request_code : String
  user : ℕ
  survey : ℕ
  status : Status
  user_context : List (String × String)
  justification : String
  primary_approver : Option ℕ
  secondary_approver : Option ℕ
  rejected_by : Option ℕ
  requested_by : Option ℕ
  time_delay_hours : ℕ
  time_delay_until : Option ℕ
  entries : List RecoveryAuditEntry
  deriving DecidableEq

/-- An acting identity; `isStaff` drives the actor-type auto-detection
used by `cancel` (spec §4.3, §9). -/
structure Actor where
  id : ℕ
  email : String
  isStaff : Bool
  deriving DecidableEq

/-- Modelled from the spec: the error taxonomy (spec §7). -/
inductive RecoveryError
  | invalidState (actual : Status)
  | duplicateRequest
  | sameApprover
  | notFound
  | insufficientShares
  deriving DecidableEq

/-- One lowercase hexadecimal digit character. -/
def hexChar (n : ℕ) : Char :=
  if n < 10 then Char.ofNat (48 + n) else Char.ofNat (87 + n)

/-- Modelled from the spec: a deterministic 256-bit digest of a string
(spec §4.2 requires a 256-bit cryptographic digest, e.g. SHA-256; the
claims depend only on the digest being a deterministic 256-bit value, so
the concrete compression function is a simple fold). -/
def digest256 (s : String) : ℕ :=
  s.data.foldl (fun st c => (st * 131 + c.toNat + 1) % 2 ^ 256) 5381

/-- The 64-character lowercase-hex rendering of the 256-bit digest. -/
def digestHex (s : String) : String :=
  ⟨(List.range 64).map (fun i => hexChar (digest256 s / 16 ^ (63 - i) % 16))⟩

/-- Whether a character is a lowercase hexadecimal digit. -/
def isHexChar (c : Char) : Bool :=
  (48 ≤ c.toNat && c.toNat ≤ 57) || (97 ≤ c.toNat && c.toNat ≤ 102)

/-- Whether a string is a 64-character hexadecimal digest. -/
def isHexDigest (s : String) : Bool :=
  s.length == 64 && s.data.all isHexChar

/-- Deterministic serialization of a key-value payload. -/
def kvSerialize (kv : List (String × String)) : String :=
  kv.foldl (fun acc p => acc ++ p.1 ++ "=" ++ p.2 ++ ";") ""

/-- Modelled from the spec: the canonical, order-stable serialization of
an audit entry's content concatenated with the previous hash (spec §4.2). -/
def canonicalSerialization (request_code event_type actor_type : String)
    (actor_id : ℕ) (actor_email severity : String)
    (details : List (String × String)) (timestamp : ℕ)
    (previous_hash : String) : String :=
  request_code ++ "|" ++ event_type ++ "|" ++ actor_type ++ "|" ++
    toString actor_id ++ "|" ++ actor_email ++ "|" ++ severity ++ "|" ++
    kvSerialize details ++ "|" ++ toString timestamp ++ "|" ++ previous_hash

/-- The `entry_hash` of the most recent audit entry, or `""` if there is
none yet (spec §4.2). -/
def lastHash (es : List RecoveryAuditEntry) : String :=
  match es.getLast? with
  | some e => e.entry_hash
  | none => ""

/-- Build one audit entry, linking it to the previous hash. -/
def mkAuditEntry (request_code event_type actor_type : String) (actor_id : ℕ)
    (actor_email severity : String) (details : List (String × String))
    (now : ℕ) (prev : String) : RecoveryAuditEntry :=
  { event_type := event_type, actor_type := actor_type, actor_id := actor_id,
    actor_email := actor_email, severity := severity, details := details,
    timestamp := now, previous_hash := prev,
    entry_hash := digestHex (canonicalSerialization request_code event_type
      actor_type actor_id actor_email severity details now prev) }

/-- Modelled from the spec: `AuditChain.append` — append one hash-chained
audit entry to a request (spec §4.2). -/
def appendAudit (r : RecoveryRequest) (event_type actor_type : String)
    (actor_id : ℕ) (actor_email severity : String)
    (details : List (String × String)) (now : ℕ) : RecoveryRequest :=
  { r with entries := r.entries ++
      [mkAuditEntry r.request_code event_type actor_type actor_id actor_email
        severity details now (lastHash r.entries)] }

/-- The hash-chain invariant relative to an expected previous hash:
each entry's `previous_hash` equals the running hash, and each
`entry_hash` is a 64-character hex digest. -/
def chainOkFrom (prev : String) : List RecoveryAuditEntry → Bool
  | [] => true
  | e :: es =>
    e.previous_hash == prev && isHexDigest e.entry_hash &&
      chainOkFrom e.entry_hash es

/-- The audit-chain invariant of spec §3: the first entry's
`previous_hash` is `""`, every later entry's `previous_hash` is the
preceding entry's `entry_hash`, and every `entry_hash` is a 64-character
hex string. -/
def chainOk (es : List RecoveryAuditEntry) : Bool := chainOkFrom "" es

/-- The human-shareable request code derived from the id at creation
(spec §3). -/
def requestCode (id : ℕ) : String := "REC-" ++ toString id

/-- Modelled from the spec: the freshly created request, with its
`request_submitted` audit entry (spec §4.3 `create`). -/
def newRequest (actor : Actor) (survey : ℕ) (context : List (String × String))
    (newId : ℕ) (now : ℕ) : RecoveryRequest :=
  appendAudit
    { id := newId, request_code := requestCode newId, user := actor.id,
      survey := survey, status := Status.PENDING_VERIFICATION,
      user_context := context, justification := "", primary_approver := none,
      secondary_approver := none, rejected_by := none, requested_by := none,
      time_delay_hours := 24, time_delay_until := none, entries := [] }
    "request_submitted" "user" actor.id actor.email "info" context now

/-- Whether a non-terminal request already exists for `(user, survey)`. -/
def hasActiveRequest (db : List RecoveryRequest) (user survey : ℕ) : Bool :=
  db.any (fun r => r.user == user && r.survey == survey && !r.status.isTerminal)

/-- Modelled from the spec: `create(user, survey, context)` — fails with
`NotFound` if the survey does not exist, with `DuplicateRequest` if an
active (non-terminal) request already exists for `(user, survey)`, and
otherwise appends the new request (spec §4.3). -/
def create_request (db : List RecoveryRequest) (surveys : List ℕ)
    (actor : Actor) (survey : ℕ) (context : List (String × String))
    (newId : ℕ) (now : ℕ) : Except RecoveryError (List RecoveryRequest) :=
  if !surveys.contains survey then .error .notFound
  else if hasActiveRequest db actor.id survey then .error .duplicateRequest
  else .ok (db ++ [newRequest actor survey context newId now])

/-- Modelled from the spec: `approve_primary(admin, reason)` — requires
`AWAITING_PRIMARY` (or the earlier verification state that funnels there),
records the primary approver, transitions to `AWAITING_SECONDARY` and
appends a `primary_approval` audit entry (spec §4.3). -/
def approve_primary (r : RecoveryRequest) (a : Actor) (reason : String)
    (now : ℕ) : Except RecoveryError RecoveryRequest :=
  if r.status = Status.AWAITING_PRIMARY ∨ r.status = Status.PENDING_VERIFICATION then
    .ok (appendAudit
      { r with status := Status.AWAITING_SECONDARY, primary_approver := some a.id }
      "primary_approval" "admin" a.id a.email "info" [("reason", reason)] now)
  else .error (.invalidState r.status)

/-- Modelled from the spec: `approve_secondary(admin, reason)` — requires
`AWAITING_SECONDARY`, fails with `SameApprover` if the admin equals the
recorded primary approver, otherwise records the secondary approver, sets
`time_delay_until = now + time_delay_hours`, transitions to
`IN_TIME_DELAY` and appends a `secondary_approval` audit entry whose
details include `time_delay_until` (spec §4.3). -/
def approve_secondary (r : RecoveryRequest) (a : Actor) (reason : String)
    (now : ℕ) : Except RecoveryError RecoveryRequest :=
  if r.status = Status.AWAITING_SECONDARY then
    if r.primary_approver = some a.id then .error .sameApprover
    else
      .ok (appendAudit
        { r with status := Status.IN_TIME_DELAY,
                 secondary_approver := some a.id,
                 time_delay_until := some (now + r.time_delay_hours) }
        "secondary_approval" "admin" a.id a.email "info"
        [("reason", reason),
         ("time_delay_until", toString (now + r.time_delay_hours))] now)
  else .error (.invalidState r.status)

/-- Modelled from the spec: `reject(admin, reason)` — allowed from any
non-terminal state, records `rejected_by`, transitions to `REJECTED` and
appends a `rejection` audit entry (spec §4.3). -/
def reject_request (r : RecoveryRequest) (a : Actor) (reason : String)
    (now : ℕ) : Except RecoveryError RecoveryRequest :=
  if r.status.isTerminal then .error (.invalidState r.status)
  else
    .ok (appendAudit { r with status := Status.REJECTED, rejected_by := some a.id }
      "rejection" "admin" a.id a.email "info" [("reason", reason)] now)

/-- Modelled from the spec: `cancel(actor, reason)` — allowed from any
non-terminal state, transitions to `CANCELLED` and appends a
`cancellation` audit entry; the actor type is derived from the actor's
administrative status (spec §4.3). -/
def cancel_request (r : RecoveryRequest) (actor : Actor) (reason : String)
    (now : ℕ) : Except RecoveryError RecoveryRequest :=
  if r.status.isTerminal then .error (.invalidState r.status)
  else
    .ok (appendAudit { r with status := Status.CANCELLED }
      "cancellation" (if actor.isStaff then "admin" else "user") actor.id
      actor.email "info" [("reason", reason)] now)

/-- Modelled from the spec: `check_time_delay_complete()` — if the status
is `IN_TIME_DELAY` and `now ≥ time_delay_until`, transitions to
`READY_FOR_EXECUTION`, appends a `time_delay_complete` audit entry and
returns `true`; otherwise returns `false` without side effects
(spec §4.3). -/
def check_time_delay_complete (r : RecoveryRequest) (now : ℕ) :
    Bool × RecoveryRequest :=
  if r.status = Status.IN_TIME_DELAY then
    match r.time_delay_until with
    | some u =>
      if u ≤ now then
        (true, appendAudit { r with status := Status.READY_FOR_EXECUTION }
          "time_delay_complete" "system" 0 "" "info" [] now)
      else (false, r)
    | none => (false, r)
  else (false, r)

/-- Modelled from the spec: the successful completion of a platform
recovery on one request — appends the critical
`platform_recovery_executed` audit entry and transitions to `COMPLETED`
(spec §4.4). -/
def completePlatformRecovery (r : RecoveryRequest) (approvedBy : String)
    (now : ℕ) : RecoveryRequest :=
  appendAudit { r with status := Status.COMPLETED }
    "platform_recovery_executed" "admin" 0 approvedBy "critical"
    [("approved_by", approvedBy)] now

/-- Modelled from the spec: `execute(recovery_request_id, custodian_shares,
new_password, approved_by)` — fails with `NotFound` if the request does
not exist, with `InvalidState` (naming the actual status) if the status
is not exactly `PENDING_PLATFORM_RECOVERY`, and with `InsufficientShares`
if fewer than 3 custodian shares are supplied (spec §4.4). -/
def execute_platform_recovery (db : List RecoveryRequest) (rid : ℕ)
    (shares : List String) (newPassword approvedBy : String) (now : ℕ) :
    Except RecoveryError (List RecoveryRequest) :=
  match db.find? (fun r => r.id == rid) with
  | none => .error .notFound
  | some r =>
    if r.status = Status.PENDING_PLATFORM_RECOVERY then
      if shares.length < 3 then .error .insufficientShares
      else .ok (db.map (fun q =>
        if q.id == rid then completePlatformRecovery q approvedBy now else q))
    else .error (.invalidState r.status)

/-- The request state persisted after a fallible transition: the new
state on success, the unchanged original on failure (the source raises
before saving, leaving the stored record untouched). -/
def persistR (r : RecoveryRequest)
    (res : Except RecoveryError RecoveryRequest) : RecoveryRequest :=
  match res with
  | .ok r' => r'
  | .error _ => r

/-- The database persisted after a fallible operation: the new contents
on success, the unchanged original on failure. -/
def persistDB (db : List RecoveryRequest)
    (res : Except RecoveryError (List RecoveryRequest)) :
    List RecoveryRequest :=
  match res with
  | .ok db' => db'
  | .error _ => db

/-- One successful transition of a single recovery request. -/
inductive Step : RecoveryRequest → RecoveryRequest → Prop where
  | primary (r : RecoveryRequest) (a : Actor) (reason : String) (now : ℕ)
      (r' : RecoveryRequest) (h : approve_primary r a reason now = .ok r') :
      Step r r'
  | secondary (r : RecoveryRequest) (a : Actor) (reason : String) (now : ℕ)
      (r' : RecoveryRequest) (h : approve_secondary r a reason now = .ok r') :
      Step r r'
  | rejected (r : RecoveryRequest) (a : Actor) (reason : String) (now : ℕ)
      (r' : RecoveryRequest) (h : reject_request r a reason now = .ok r') :
      Step r r'
  | cancelled (r : RecoveryRequest) (a : Actor) (reason : String) (now : ℕ)
      (r' : RecoveryRequest) (h : cancel_request r a reason now = .ok r') :
      Step r r'
  | delay (r : RecoveryRequest) (now : ℕ) (r' : RecoveryRequest)
      (h : check_time_delay_complete r now = (true, r')) : Step r r'
  | platform (r : RecoveryRequest) (approvedBy : String) (now : ℕ)
      (h : r.status = Status.PENDING_PLATFORM_RECOVERY) :
      Step r (completePlatformRecovery r approvedBy now)

/-- Requests reachable through the modelled lifecycle: created by
`create`, then evolved only by the transition operations. -/
inductive Reachable : RecoveryRequest → Prop where
  | created (actor : Actor) (survey : ℕ) (context : List (String × String))
      (newId : ℕ) (now : ℕ) :
      Reachable (newRequest actor survey context newId now)
  | step {r r' : RecoveryRequest} :
      Reachable r → Step r r' → Reachable r'

/-- A concrete acting admin for the witness instantiations. -/
def sampleActor : Actor := { id := 1, email := "a@example.com", isStaff := true }

/-- A second concrete admin for the witness instantiations. -/
def sampleActor2 : Actor := { id := 2, email := "b@example.com", isStaff := true }

/-- A concrete base request used by the witness instantiations. -/
def baseRequest : RecoveryRequest :=
  { id := 1, request_code := "REC-1", user := 10, survey := 20,
    status := Status.PENDING_VERIFICATION, user_context := [],
    justification := "", primary_approver := none, secondary_approver := none,
    rejected_by := none, requested_by := none, time_delay_hours := 24,
    time_delay_until := none, entries := [] }

/-- A concrete non-admin user for the witness instantiations. -/
def sampleUser : Actor := { id := 10, email := "u@example.com", isStaff := false }

/-- A concrete request awaiting secondary approval with primary approver
`1` (the id of `sampleActor`). -/
def awaitingSecondaryRequest : RecoveryRequest :=
  { baseRequest with status := Status.AWAITING_SECONDARY,
                     primary_approver := some 1 }

/-- A concrete request awaiting secondary approval with primary approver
`2` (distinct from `sampleActor`). -/
def awaitingSecondaryRequest2 : RecoveryRequest :=
  { baseRequest with status := Status.AWAITING_SECONDARY,
                     primary_approver := some 2 }

/-- A concrete request already in `READY_FOR_EXECUTION`. -/
def readyRequest : RecoveryRequest :=
  { baseRequest with status := Status.READY_FOR_EXECUTION,
                     time_delay_until := some 1 }

/-- The running hash after folding a list of entries onto an expected
previous hash; used to state the chain append lemma. -/
def lastHashFrom (prev : String) : List RecoveryAuditEntry → String
  | [] => prev
  | e :: es => lastHashFrom e.entry_hash es

/-- The filter used by the periodic sweep command: requests in
`IN_TIME_DELAY` whose `time_delay_until` has passed
(`process_recovery_time_delays.py`, the queryset at lines 58-61). -/
def sweepMatch (r : RecoveryRequest) (now : ℕ) : Bool :=
  r.status == Status.IN_TIME_DELAY &&
    (match r.time_delay_until with
     | some u => decide (u ≤ now)
     | none => false)

/-- The `process_recovery_time_delays` management command
(`Command.handle`): selects the expired `IN_TIME_DELAY` requests, and for
each of them calls `check_time_delay_complete` unless `--dry-run` was
given, in which case it only counts what it would have processed.
Returns the resulting database and the processed count that the summary
report prints. -/
def process_recovery_time_delays (db : List RecoveryRequest) (now : ℕ)
    (dryRun : Bool) : List RecoveryRequest × ℕ :=
  (db.map (fun r =>
      if !dryRun && sweepMatch r now then (check_time_delay_complete r now).2
      else r),
   ((db.filter (fun r => sweepMatch r now)).filter
      (fun r => dryRun || (check_time_delay_complete r now).1)).length)

section ShamirTheorems

variable {K : Type} [Field K] [DecidableEq K]

theorem gfPolyEval_eq_eval (cs : List K) (x : K) :
    gfPolyEval cs x = (pOf cs).eval x := by
  induction cs with
  | nil => simp [gfPolyEval, pOf]
  | cons c cs ih =>
    show c + x * gfPolyEval cs x = (pOf (c :: cs)).eval x
    rw [ih]
    simp [pOf]

theorem pOf_coeff (cs : List K) (i : ℕ) : (pOf cs).coeff i = cs.getD i 0 := by
  induction cs generalizing i with
  | nil => simp [pOf]
  | cons c cs ih =>
    cases i with
    | zero => simp [pOf]
    | succ j =>
      simp only [pOf, Polynomial.coeff_add, Polynomial.coeff_C_succ,
        Polynomial.coeff_X_mul, zero_add, List.getD_cons_succ]
      exact ih j

theorem pOf_degree_lt (cs : List K) : (pOf cs).degree < (cs.length : WithBot ℕ) := by
  rw [Polynomial.degree_lt_iff_coeff_zero]
  intro m hm
  rw [pOf_coeff]
  exact List.getD_eq_default _ _ (by exact_mod_cast hm)

theorem div_sub_eq (a b : K) : a / (a - b) = (b - a)⁻¹ * (0 - a) := by
  rw [zero_sub, div_eq_mul_inv, ← neg_sub b a, inv_neg]
  ring

theorem lagrangeAtZero_eq_interpolate {m : ℕ} (v r : Fin m → K) :
    lagrangeAtZero v r = (Lagrange.interpolate Finset.univ v r).eval 0 := by
  rw [Lagrange.interpolate_apply, Polynomial.eval_finset_sum]
  refine Finset.sum_congr rfl fun i _ => ?_
  rw [Polynomial.eval_mul, Polynomial.eval_C]
  unfold Lagrange.basis
  rw [Polynomial.eval_prod]
  refine congrArg (r i * ·) (Finset.prod_congr rfl fun j _ => ?_)
  unfold Lagrange.basisDivisor
  rw [Polynomial.eval_mul, Polynomial.eval_C, Polynomial.eval_sub,
    Polynomial.eval_X, Polynomial.eval_C]
  exact div_sub_eq (v j) (v i)

theorem lagrangeAtZero_eval {m : ℕ} {v : Fin m → K} (hv : Function.Injective v)
    {p : Polynomial K} (hdeg : p.degree < (m : WithBot ℕ)) :
    lagrangeAtZero v (fun i => p.eval (v i)) = p.eval 0 := by
  rw [lagrangeAtZero_eq_interpolate]
  have hp : p = Lagrange.interpolate Finset.univ v (fun i => p.eval (v i)) :=
    Lagrange.eq_interpolate hv.injOn (by simpa using hdeg)
  rw [← hp]

/-- C1: for every 64-byte secret, every valid `(t, n)` with `2 ≤ t ≤ n ≤ 255`,
every choice of the random tail coefficients, distinct nonzero share points,
and every subset of exactly `t` of the `n` shares produced by `split_secret`,
`reconstruct_secret` returns exactly the original secret. -/
theorem reconstruct_any_t_subset (K : Type) [Field K] [DecidableEq K]
    (t n : ℕ) (ht : 2 ≤ t) (htn : t ≤ n) (hn : n ≤ 255)
    (secret : Fin 64 → K) (tail : Fin 64 → Fin (t - 1) → K)
    (pts : Fin n → K) (hpts : Function.Injective pts) (hpts0 : ∀ i, pts i ≠ 0)
    (sel : Fin t → Fin n) (hsel : Function.Injective sel) :
    reconstruct_secret (fun i => split_secret secret t n tail pts (sel i)) = secret := by
  funext b
  unfold reconstruct_secret split_secret
  simp only [gfPolyEval_eq_eval]
  have hlen : (secret b :: List.ofFn (tail b)).length = t := by
    simp only [List.length_cons, List.length_ofFn]
    omega
  have hdeg : (pOf (secret b :: List.ofFn (tail b))).degree < (t : WithBot ℕ) := by
    have := pOf_degree_lt (secret b :: List.ofFn (tail b))
    rwa [hlen] at this
  have h := lagrangeAtZero_eval (v := fun i : Fin t => pts (sel i))
    (hpts.comp hsel) hdeg
  rw [h, ← Polynomial.coeff_zero_eq_eval_zero, pOf_coeff]
  rfl

/-- Witness for `reconstruct_any_t_subset`: a concrete 3-share, threshold-2
split over `ℚ` reconstructed from the first two shares. -/
theorem reconstruct_any_t_subset_witness :
    reconstruct_secret
      (fun i => split_secret sampleSecret 2 3 sampleTail samplePts (sampleSel i)) =
      sampleSecret :=
  reconstruct_any_t_subset (ZMod 11) 2 3 (by decide) (by decide) (by decide) sampleSecret
    sampleTail samplePts (by decide) (by decide) sampleSel (by decide)

theorem gfPolyEval_ofFn_zero (r : ℕ) (x : K) :
    gfPolyEval (List.ofFn (fun _ : Fin r => (0 : K))) x = 0 := by
  induction r with
  | zero => simp [gfPolyEval]
  | succ m ih =>
    rw [List.ofFn_succ]
    show (0 : K) + x * gfPolyEval (List.ofFn fun _ : Fin m => (0 : K)) x = 0
    rw [ih]
    ring

theorem gfPolyEval_ofFn_unit (r d : ℕ) (hd : d < r) (x : K) :
    gfPolyEval (List.ofFn (fun j : Fin r => if (j : ℕ) = d then (1 : K) else 0)) x =
      x ^ d := by
  induction r generalizing d with
  | zero => omega
  | succ m ih =>
    rw [List.ofFn_succ]
    cases d with
    | zero =>
      show (if (0 : ℕ) = 0 then (1 : K) else 0) + x * gfPolyEval
        (List.ofFn fun j : Fin m => if ((Fin.succ j : Fin (m + 1)) : ℕ) = 0 then (1 : K) else 0) x
        = x ^ 0
      have hz : (fun j : Fin m =>
          if ((Fin.succ j : Fin (m + 1)) : ℕ) = 0 then (1 : K) else 0) =
          fun _ : Fin m => (0 : K) := by
        funext j
        simp [Fin.val_succ]
      rw [hz, gfPolyEval_ofFn_zero]
      simp
    | succ e =>
      show (if (0 : ℕ) = e + 1 then (1 : K) else 0) + x * gfPolyEval
        (List.ofFn fun j : Fin m =>
          if ((Fin.succ j : Fin (m + 1)) : ℕ) = e + 1 then (1 : K) else 0) x
        = x ^ (e + 1)
      have he : (fun j : Fin m =>
          if ((Fin.succ j : Fin (m + 1)) : ℕ) = e + 1 then (1 : K) else 0) =
          fun j : Fin m => if (j : ℕ) = e then (1 : K) else 0 := by
        funext j
        simp [Fin.val_succ]
      rw [he, ih e (by omega)]
      simp [pow_succ]
      ring

theorem lagrangeAtZero_secret_add_pow {m : ℕ} (hm : 1 ≤ m) {v : Fin m → K}
    (hv : Function.Injective v) (s : K) :
    lagrangeAtZero v (fun i => s + v i ^ m) = s - ∏ i, (0 - v i) := by
  classical
  set N : Polynomial K := ∏ i, (Polynomial.X - Polynomial.C (v i)) with hN
  have hmonic : N.Monic :=
    Polynomial.monic_prod_of_monic _ _ (fun i _ => Polynomial.monic_X_sub_C (v i))
  have hndeg : N.natDegree = m := by
    rw [hN, Polynomial.natDegree_prod_of_monic _ _ (fun i _ => Polynomial.monic_X_sub_C (v i))]
    simp [Polynomial.natDegree_X_sub_C]
  have hdegN : N.degree = (m : WithBot ℕ) := by
    rw [Polynomial.degree_eq_natDegree hmonic.ne_zero, hndeg]
  set q : Polynomial K := Polynomial.C s + (Polynomial.X ^ m - N) with hq
  have hNeval : ∀ i, N.eval (v i) = 0 := by
    intro i
    rw [hN, Polynomial.eval_prod]
    exact Finset.prod_eq_zero (Finset.mem_univ i) (by simp)
  have hqeval : ∀ i, q.eval (v i) = s + v i ^ m := by
    intro i
    simp [hq, hNeval i]
  have hdeg : q.degree < (m : WithBot ℕ) := by
    have hsub : (Polynomial.X ^ m - N).degree < (m : WithBot ℕ) := by
      have h1 : (Polynomial.X ^ m : Polynomial K).degree = N.degree := by
        rw [Polynomial.degree_X_pow, hdegN]
      have h2 : (Polynomial.X ^ m : Polynomial K) ≠ 0 := pow_ne_zero m Polynomial.X_ne_zero
      have h3 : (Polynomial.X ^ m : Polynomial K).leadingCoeff = N.leadingCoeff := by
        rw [Polynomial.leadingCoeff_X_pow, hmonic.leadingCoeff]
      have := Polynomial.degree_sub_lt h1 h2 h3
      rwa [Polynomial.degree_X_pow] at this
    refine lt_of_le_of_lt (Polynomial.degree_add_le _ _) (max_lt ?_ hsub)
    exact lt_of_le_of_lt Polynomial.degree_C_le (by exact_mod_cast Nat.pos_of_ne_zero (by omega))
  have hval : (fun i => s + v i ^ m) = fun i => q.eval (v i) := by
    funext i
    rw [hqeval i]
  rw [hval, lagrangeAtZero_eval hv hdeg]
  have h0m : (0 : K) ^ m = 0 := zero_pow (by omega)
  simp [hq, hN, h0m, Polynomial.eval_prod]
  ring

/-- Counterexample to C8 as stated: with threshold `2` and all-zero tail
coefficients, reconstruction from a single share (fewer than `t`) silently
returns exactly the original secret. -/
theorem reconstruct_below_threshold_counterexample :
    reconstruct_secret
      (fun _ : Fin 1 =>
        split_secret sampleSecret 2 2 (fun _ _ => (0 : ZMod 11)) samplePts2 0) =
      sampleSecret := by
  decide

/-- C8 (amended): reconstruction from fewer than `t` shares raises no error
(it is a total function) and is not guaranteed to equal the secret: for every
subset of size `k` with `1 ≤ k < t` there exist tail-coefficient draws for
which the silently returned value differs from the original secret. -/
theorem reconstruct_below_threshold (K : Type) [Field K] [DecidableEq K]
    (t n k : ℕ) (ht : 2 ≤ t) (htn : t ≤ n) (hk1 : 1 ≤ k) (hkt : k < t)
    (secret : Fin 64 → K)
    (pts : Fin n → K) (hpts : Function.Injective pts) (hpts0 : ∀ i, pts i ≠ 0)
    (sel : Fin k → Fin n) (hsel : Function.Injective sel) :
    ∃ tail : Fin 64 → Fin (t - 1) → K,
      reconstruct_secret (fun i => split_secret secret t n tail pts (sel i)) ≠ secret := by
  refine ⟨fun _ j => if (j : ℕ) = k - 1 then (1 : K) else 0, ?_⟩
  intro hEq
  have hb := congrFun hEq ⟨0, by omega⟩
  unfold reconstruct_secret split_secret at hb
  simp only at hb
  have hvals : (fun i : Fin k => gfPolyEval
      (secret ⟨0, by omega⟩ ::
        List.ofFn (fun j : Fin (t - 1) => if (j : ℕ) = k - 1 then (1 : K) else 0))
      (pts (sel i))) =
      fun i : Fin k => secret ⟨0, by omega⟩ + pts (sel i) ^ k := by
    funext i
    show secret _ + pts (sel i) * gfPolyEval _ (pts (sel i)) = _
    rw [gfPolyEval_ofFn_unit (t - 1) (k - 1) (by omega)]
    have hk : k - 1 + 1 = k := by omega
    have hpow : pts (sel i) * pts (sel i) ^ (k - 1) = pts (sel i) ^ k := by
      rw [← pow_succ' (pts (sel i)) (k - 1), hk]
    rw [hpow]
  rw [hvals,
    lagrangeAtZero_secret_add_pow (v := fun i => pts (sel i)) hk1 (hpts.comp hsel)] at hb
  have hprod : (∏ i : Fin k, ((0 : K) - pts (sel i))) = 0 := sub_eq_self.mp hb
  obtain ⟨i, _, hi⟩ := Finset.prod_eq_zero_iff.mp hprod
  have : pts (sel i) = 0 := by
    rw [zero_sub, neg_eq_zero] at hi
    exact hi
  exact hpts0 (sel i) this

/-- Witness for `reconstruct_below_threshold`: a concrete threshold-2,
3-share split over `ℚ` where some tail draw makes a 1-share reconstruction
differ from the secret. -/
theorem reconstruct_below_threshold_witness :
    ∃ tail : Fin 64 → Fin 1 → ZMod 11,
      reconstruct_secret
        (fun _ : Fin 1 => split_secret sampleSecret 2 3 tail samplePts 0) ≠
        sampleSecret :=
  reconstruct_below_threshold (ZMod 11) 2 3 1 (by decide) (by decide) (by decide) (by decide)
    sampleSecret samplePts (by decide) (by decide) (fun _ => 0) (by decide)

end ShamirTheorems

section StateMachineTheorems

theorem hexChar_isHexChar (m : ℕ) (hm : m < 16) : isHexChar (hexChar m) = true := by
  have h : ∀ x, x < 16 → isHexChar (hexChar x) = true := by decide
  exact h m hm

theorem isHexDigest_digestHex (s : String) : isHexDigest (digestHex s) = true := by
  unfold isHexDigest digestHex
  refine Bool.and_eq_true_iff.mpr ⟨?_, ?_⟩
  · show (String.length ⟨(List.range 64).map _⟩ == 64) = true
    simp [String.length]
  · refine List.all_eq_true.mpr ?_
    intro c hc
    obtain ⟨i, hi, rfl⟩ := List.mem_map.mp hc
    exact hexChar_isHexChar _ (Nat.mod_lt _ (by norm_num))

theorem lastHashFrom_eq (prev : String) (es : List RecoveryAuditEntry) :
    lastHashFrom prev es =
      (match es.getLast? with
       | some e => e.entry_hash
       | none => prev) := by
  induction es generalizing prev with
  | nil => rfl
  | cons a as ih =>
    cases as with
    | nil => rfl
    | cons b bs =>
      rw [List.getLast?_cons_cons]
      exact ih a.entry_hash

theorem lastHash_eq (es : List RecoveryAuditEntry) :
    lastHash es = lastHashFrom "" es := by
  rw [lastHashFrom_eq]
  rfl

theorem chainOkFrom_append (prev : String) (es : List RecoveryAuditEntry)
    (e : RecoveryAuditEntry) (hok : chainOkFrom prev es = true)
    (hprev : e.previous_hash = lastHashFrom prev es)
    (hhex : isHexDigest e.entry_hash = true) :
    chainOkFrom prev (es ++ [e]) = true := by
  induction es generalizing prev with
  | nil =>
    simp only [lastHashFrom] at hprev
    simp [chainOkFrom, hprev, hhex]
  | cons a as ih =>
    simp only [List.cons_append, chainOkFrom, Bool.and_eq_true_iff] at hok ⊢
    obtain ⟨⟨h1, h2⟩, h3⟩ := hok
    exact ⟨⟨h1, h2⟩, ih a.entry_hash h3 hprev⟩

theorem chainOk_appendAudit (r : RecoveryRequest) (et aty : String) (aid : ℕ)
    (em sev : String) (det : List (String × String)) (now : ℕ)
    (h : chainOk r.entries = true) :
    chainOk (appendAudit r et aty aid em sev det now).entries = true := by
  unfold chainOk at *
  show chainOkFrom "" (r.entries ++ [_]) = true
  refine chainOkFrom_append _ _ _ h ?_ (isHexDigest_digestHex _)
  show lastHash r.entries = lastHashFrom "" r.entries
  exact lastHash_eq r.entries

theorem Step.entries_append {r r' : RecoveryRequest} (h : Step r r') :
    ∃ e, r'.entries = r.entries ++ [e] := by
  cases h with
  | primary a reason now r' h =>
    unfold approve_primary at h
    split at h
    · cases h
      exact ⟨_, rfl⟩
    · cases h
  | secondary a reason now r' h =>
    unfold approve_secondary at h
    split at h
    · split at h
      · cases h
      · cases h
        exact ⟨_, rfl⟩
    · cases h
  | rejected a reason now r' h =>
    unfold reject_request at h
    split at h
    · cases h
    · cases h
      exact ⟨_, rfl⟩
  | cancelled a reason now r' h =>
    unfold cancel_request at h
    split at h
    · cases h
    · cases h
      exact ⟨_, rfl⟩
  | delay now r' h =>
    unfold check_time_delay_complete at h
    split at h
    · split at h
      · split at h
        · injection h with h1 h2
          subst h2
          exact ⟨_, rfl⟩
        · injection h with h1 h2
          cases h1
      · injection h with h1 h2
        cases h1
    · injection h with h1 h2
      cases h1
  | platform approvedBy now h =>
    exact ⟨_, rfl⟩

theorem Step.chain {r r' : RecoveryRequest} (h : Step r r')
    (hok : chainOk r.entries = true) : chainOk r'.entries = true := by
  cases h with
  | primary a reason now r' h =>
    unfold approve_primary at h
    split at h
    · cases h
      exact chainOk_appendAudit _ _ _ _ _ _ _ _ hok
    · cases h
  | secondary a reason now r' h =>
    unfold approve_secondary at h
    split at h
    · split at h
      · cases h
      · cases h
        exact chainOk_appendAudit _ _ _ _ _ _ _ _ hok
    · cases h
  | rejected a reason now r' h =>
    unfold reject_request at h
    split at h
    · cases h
    · cases h
      exact chainOk_appendAudit _ _ _ _ _ _ _ _ hok
  | cancelled a reason now r' h =>
    unfold cancel_request at h
    split at h
    · cases h
    · cases h
      exact chainOk_appendAudit _ _ _ _ _ _ _ _ hok
  | delay now r' h =>
    unfold check_time_delay_complete at h
    split at h
    · split at h
      · split at h
        · injection h with h1 h2
          subst h2
          exact chainOk_appendAudit _ _ _ _ _ _ _ _ hok
        · injection h with h1 h2
          cases h1
      · injection h with h1 h2
        cases h1
    · injection h with h1 h2
      cases h1
  | platform approvedBy now h =>
    exact chainOk_appendAudit _ _ _ _ _ _ _ _ hok

/-- C2: every reachable `RecoveryRequest` satisfies the audit-chain
invariant — the first entry's `previous_hash` is `""`, every later
entry's `previous_hash` equals the preceding entry's `entry_hash`, and
every `entry_hash` is a 64-character hex string — and every transition
operation preserves the invariant while only appending exactly one entry,
never mutating or reordering the existing ones. -/
theorem audit_chain_invariant :
    (∀ r : RecoveryRequest, Reachable r → chainOk r.entries = true) ∧
    (∀ r r' : RecoveryRequest, Step r r' → chainOk r.entries = true →
      chainOk r'.entries = true ∧ ∃ e, r'.entries = r.entries ++ [e]) := by
  have hstep : ∀ r r' : RecoveryRequest, Step r r' →
      chainOk r.entries = true →
      chainOk r'.entries = true ∧ ∃ e, r'.entries = r.entries ++ [e] :=
    fun r r' h hok => ⟨h.chain hok, h.entries_append⟩
  refine ⟨?_, hstep⟩
  intro r hr
  induction hr with
  | created actor survey context newId now =>
    exact chainOk_appendAudit _ _ _ _ _ _ _ _ rfl
  | step hr hs ih => exact (hstep _ _ hs ih).1

/-- Witness for `audit_chain_invariant`: the freshly created concrete
request satisfies the chain invariant. -/
theorem audit_chain_invariant_witness :
    chainOk (newRequest sampleActor 20 [] 1 0).entries = true :=
  audit_chain_invariant.1 _ (Reachable.created sampleActor 20 [] 1 0)

/-- C3: `approve_secondary` on a request in `AWAITING_SECONDARY` fails
with `SameApprover` whenever the admin equals the recorded primary
approver, and on that failure the persisted request is unchanged: its
status remains `AWAITING_SECONDARY` and `secondary_approver` stays
unset. -/
theorem approve_secondary_same_approver (r : RecoveryRequest) (a : Actor)
    (reason : String) (now : ℕ)
    (hst : r.status = Status.AWAITING_SECONDARY)
    (hpa : r.primary_approver = some a.id)
    (hsec : r.secondary_approver = none) :
    approve_secondary r a reason now = .error .sameApprover ∧
    persistR r (approve_secondary r a reason now) = r ∧
    (persistR r (approve_secondary r a reason now)).status =
      Status.AWAITING_SECONDARY ∧
    (persistR r (approve_secondary r a reason now)).secondary_approver = none := by
  have h : approve_secondary r a reason now = .error .sameApprover := by
    unfold approve_secondary
    rw [if_pos hst, if_pos hpa]
  refine ⟨h, ?_, ?_, ?_⟩ <;> rw [h] <;> simp [persistR, hst, hsec]

/-- Witness for `approve_secondary_same_approver` at a concrete request
whose primary approver is the acting admin. -/
theorem approve_secondary_same_approver_witness :
    approve_secondary awaitingSecondaryRequest sampleActor "x" 5 =
      .error .sameApprover ∧
    persistR awaitingSecondaryRequest
      (approve_secondary awaitingSecondaryRequest sampleActor "x" 5) =
      awaitingSecondaryRequest ∧
    (persistR awaitingSecondaryRequest
      (approve_secondary awaitingSecondaryRequest sampleActor "x" 5)).status =
      Status.AWAITING_SECONDARY ∧
    (persistR awaitingSecondaryRequest
      (approve_secondary awaitingSecondaryRequest sampleActor "x" 5)).secondary_approver =
      none :=
  approve_secondary_same_approver awaitingSecondaryRequest sampleActor "x" 5
    rfl rfl rfl

/-- C4: a successful `approve_secondary` by an admin distinct from the
primary approver, on a request in `AWAITING_SECONDARY`, records the
secondary approver, sets `time_delay_until = now + time_delay_hours`,
transitions to `IN_TIME_DELAY`, and appends exactly one audit entry of
type `secondary_approval` whose details include `time_delay_until`. -/
theorem approve_secondary_success (r : RecoveryRequest) (a : Actor)
    (reason : String) (now : ℕ)
    (hst : r.status = Status.AWAITING_SECONDARY)
    (hpa : r.primary_approver ≠ some a.id) :
    ∃ r', approve_secondary r a reason now = .ok r' ∧
      r'.secondary_approver = some a.id ∧
      r'.time_delay_until = some (now + r.time_delay_hours) ∧
      r'.status = Status.IN_TIME_DELAY ∧
      ∃ e, r'.entries = r.entries ++ [e] ∧
        e.event_type = "secondary_approval" ∧
        ("time_delay_until", toString (now + r.time_delay_hours)) ∈ e.details := by
  unfold approve_secondary
  rw [if_pos hst, if_neg hpa]
  refine ⟨_, rfl, rfl, rfl, rfl, _, rfl, rfl, ?_⟩
  show _ ∈ [("reason", reason), ("time_delay_until", toString (now + r.time_delay_hours))]
  simp

/-- Witness for `approve_secondary_success` at a concrete request whose
primary approver differs from the acting admin. -/
theorem approve_secondary_success_witness :
    ∃ r', approve_secondary awaitingSecondaryRequest2 sampleActor "x" 5 = .ok r' ∧
      r'.secondary_approver = some sampleActor.id ∧
      r'.time_delay_until = some (5 + awaitingSecondaryRequest2.time_delay_hours) ∧
      r'.status = Status.IN_TIME_DELAY ∧
      ∃ e, r'.entries = awaitingSecondaryRequest2.entries ++ [e] ∧
        e.event_type = "secondary_approval" ∧
        ("time_delay_until", toString (5 + awaitingSecondaryRequest2.time_delay_hours))
          ∈ e.details :=
  approve_secondary_success awaitingSecondaryRequest2 sampleActor "x" 5
    rfl (by decide)

/-- C5: `check_time_delay_complete` returns `true` — transitioning to
`READY_FOR_EXECUTION` and appending exactly one `time_delay_complete`
audit entry — exactly when the status is `IN_TIME_DELAY` and the current
time is at or past `time_delay_until`; in every other case it returns
`false` with the request unchanged, and in particular a request already
in `READY_FOR_EXECUTION` is left untouched, so repeated calls are safe. -/
theorem ctdc_cases (r : RecoveryRequest) (now : ℕ) :
    (check_time_delay_complete r now =
        (true, appendAudit { r with status := Status.READY_FOR_EXECUTION }
          "time_delay_complete" "system" 0 "" "info" [] now) ∧
      r.status = Status.IN_TIME_DELAY ∧
      ∃ u, r.time_delay_until = some u ∧ u ≤ now) ∨
    (check_time_delay_complete r now = (false, r) ∧
      ¬(r.status = Status.IN_TIME_DELAY ∧
        ∃ u, r.time_delay_until = some u ∧ u ≤ now)) := by
  unfold check_time_delay_complete
  split
  next hst =>
    split
    next u hu =>
      split
      next hle =>
        exact Or.inl ⟨rfl, hst, u, hu, hle⟩
      next hle =>
        refine Or.inr ⟨rfl, ?_⟩
        rintro ⟨-, u2, hu2, hle2⟩
        rw [hu] at hu2
        cases hu2
        exact hle hle2
    next hu =>
      refine Or.inr ⟨rfl, ?_⟩
      rintro ⟨-, u2, hu2, -⟩
      rw [hu] at hu2
      cases hu2
  next hst =>
    exact Or.inr ⟨rfl, fun h => hst h.1⟩

theorem check_time_delay_complete_spec (r : RecoveryRequest) (now : ℕ) :
    ((check_time_delay_complete r now).1 = true ↔
      (r.status = Status.IN_TIME_DELAY ∧
        ∃ u, r.time_delay_until = some u ∧ u ≤ now)) ∧
    ((check_time_delay_complete r now).1 = true →
      ((check_time_delay_complete r now).2.status = Status.READY_FOR_EXECUTION ∧
        ∃ e, (check_time_delay_complete r now).2.entries = r.entries ++ [e] ∧
          e.event_type = "time_delay_complete")) ∧
    ((check_time_delay_complete r now).1 = false →
      (check_time_delay_complete r now).2 = r) ∧
    (r.status = Status.READY_FOR_EXECUTION →
      (check_time_delay_complete r now).1 = false ∧
      (check_time_delay_complete r now).2 = r) := by
  rcases ctdc_cases r now with ⟨hc, hst, u, hu, hle⟩ | ⟨hc, hneg⟩
  · rw [hc]
    refine ⟨?_, ?_, ?_, ?_⟩
    · exact ⟨fun _ => ⟨hst, u, hu, hle⟩, fun _ => rfl⟩
    · intro _
      exact ⟨rfl, _, rfl, rfl⟩
    · intro h
      cases h
    · intro h
      rw [hst] at h
      cases h
  · rw [hc]
    refine ⟨?_, ?_, ?_, ?_⟩
    · refine ⟨fun h => ?_, fun h => absurd h hneg⟩
      cases h
    · intro h
      cases h
    · intro _
      rfl
    · intro _
      exact ⟨rfl, rfl⟩

/-- Witness for `check_time_delay_complete_spec`: a concrete request
already in `READY_FOR_EXECUTION` is returned unchanged with `false`. -/
theorem check_time_delay_complete_spec_witness :
    (check_time_delay_complete readyRequest 5).1 = false ∧
    (check_time_delay_complete readyRequest 5).2 = readyRequest :=
  (check_time_delay_complete_spec readyRequest 5).2.2.2 rfl

/-- C6: `create` fails with `DuplicateRequest` whenever a non-terminal
request already exists for the same `(user, survey)` pair, and on that
failure the persisted database is unchanged — no new request and no
audit entry are created. -/
theorem create_request_duplicate (db : List RecoveryRequest)
    (surveys : List ℕ) (actor : Actor) (survey : ℕ)
    (context : List (String × String)) (newId now : ℕ)
    (hs : survey ∈ surveys)
    (hdup : ∃ r ∈ db, r.user = actor.id ∧ r.survey = survey ∧
      r.status.isTerminal = false) :
    create_request db surveys actor survey context newId now =
      .error .duplicateRequest ∧
    persistDB db (create_request db surveys actor survey context newId now) =
      db := by
  have hact : hasActiveRequest db actor.id survey = true := by
    obtain ⟨r, hr, h1, h2, h3⟩ := hdup
    refine List.any_eq_true.mpr ⟨r, hr, ?_⟩
    simp [h1, h2, h3]
  have hmem : surveys.contains survey = true := by
    simpa using hs
  have h : create_request db surveys actor survey context newId now =
      .error .duplicateRequest := by
    unfold create_request
    rw [hmem]
    simp only [Bool.not_true, Bool.false_eq_true, if_false]
    rw [if_pos hact]
  exact ⟨h, by rw [h]; rfl⟩

/-- Witness for `create_request_duplicate`: the concrete base request is
active for `(10, 20)`, so a second creation for the same pair fails. -/
theorem create_request_duplicate_witness :
    create_request [baseRequest] [20] sampleUser 20 [] 2 5 =
      .error .duplicateRequest ∧
    persistDB [baseRequest]
      (create_request [baseRequest] [20] sampleUser 20 [] 2 5) =
      [baseRequest] :=
  create_request_duplicate [baseRequest] [20] sampleUser 20 [] 2 5
    (by simp) ⟨baseRequest, by simp, rfl, rfl, rfl⟩

/-- C7: platform recovery execution fails with `NotFound` when no request
with the given id exists, with `InvalidState` naming the actual status
when the status is not exactly `PENDING_PLATFORM_RECOVERY`, and with
`InsufficientShares` when fewer than 3 custodian shares are supplied; in
each case the persisted database is unchanged. -/
theorem execute_platform_recovery_failures (db : List RecoveryRequest)
    (rid : ℕ) (shares : List String) (pw ab : String) (now : ℕ) :
    (db.find? (fun r => r.id == rid) = none →
      execute_platform_recovery db rid shares pw ab now = .error .notFound ∧
      persistDB db (execute_platform_recovery db rid shares pw ab now) = db) ∧
    (∀ r, db.find? (fun r => r.id == rid) = some r →
      r.status ≠ Status.PENDING_PLATFORM_RECOVERY →
      execute_platform_recovery db rid shares pw ab now =
        .error (.invalidState r.status) ∧
      persistDB db (execute_platform_recovery db rid shares pw ab now) = db) ∧
    (∀ r, db.find? (fun r => r.id == rid) = some r →
      r.status = Status.PENDING_PLATFORM_RECOVERY → shares.length < 3 →
      execute_platform_recovery db rid shares pw ab now =
        .error .insufficientShares ∧
      persistDB db (execute_platform_recovery db rid shares pw ab now) = db) := by
  refine ⟨?_, ?_, ?_⟩
  · intro hfind
    have h : execute_platform_recovery db rid shares pw ab now =
        .error .notFound := by
      unfold execute_platform_recovery
      rw [hfind]
    exact ⟨h, by rw [h]; rfl⟩
  · intro r hfind hst
    have h : execute_platform_recovery db rid shares pw ab now =
        .error (.invalidState r.status) := by
      unfold execute_platform_recovery
      rw [hfind]
      simp only [if_neg hst]
    exact ⟨h, by rw [h]; rfl⟩
  · intro r hfind hst hlen
    have h : execute_platform_recovery db rid shares pw ab now =
        .error .insufficientShares := by
      unfold execute_platform_recovery
      rw [hfind]
      simp only [if_pos hst, if_pos hlen]
    exact ⟨h, by rw [h]; rfl⟩

/-- Witness for `execute_platform_recovery_failures`: executing against an
empty database fails with `NotFound` and changes nothing. -/
theorem execute_platform_recovery_failures_witness :
    execute_platform_recovery [] 1 [] "p" "a" 0 = .error .notFound ∧
    persistDB [] (execute_platform_recovery [] 1 [] "p" "a" 0) = [] :=
  (execute_platform_recovery_failures [] 1 [] "p" "a" 0).1 rfl

/-- C10: the sweep command with `--dry-run` modifies no request — the
resulting database equals the input, so every request keeps its status
and audit entries — while the printed report still counts every expired
`IN_TIME_DELAY` request it would have processed. -/
theorem dry_run_no_modification (db : List RecoveryRequest) (now : ℕ) :
    (process_recovery_time_delays db now true).1 = db ∧
    (process_recovery_time_delays db now true).2 =
      (db.filter (fun r => sweepMatch r now)).length := by
  unfold process_recovery_time_delays
  constructor
  · simp
  · simp

end StateMachineTheorems

end CheckTick
